import Mathlib

/-!
Shallow embedding of `src/jsbin.xayoxex.js`, the selection-driven
query/view synchronization code of the Leaflet/Carto dashboard, together
with proofs of the specification's claims about it.

The JavaScript numbers this program touches (circle coordinates, radius,
restaurant counts) are embedded as finite-decimal rationals: every IEEE
double is a dyadic rational and therefore has a finite decimal expansion,
and the program performs no arithmetic on them beyond the rounding,
division and comparison steps modelled below.  `undefined`/`NaN`
propagation in the `updateMap` pipeline is modelled with `Option`.
-/

namespace DVDash

set_option maxRecDepth 8000

attribute [local semireducible] Rat.mul Rat.inv Rat.add Rat.sub

/-! ### Finite-decimal numbers (the embedding of the JS numbers used here) -/

/-- A finite-decimal number `mant / 10 ^ exp`. -/
structure DecNum where
  mant : Int
  exp : Nat
  deriving DecidableEq, Repr

/-- The rational value of a `DecNum`. -/
def DecNum.toRat (x : DecNum) : ℚ := (x.mant : ℚ) / (10 : ℚ) ^ x.exp

/-- One decimal digit as a character. -/
def digitChar : Nat → Char
  | 0 => '0' | 1 => '1' | 2 => '2' | 3 => '3' | 4 => '4'
  | 5 => '5' | 6 => '6' | 7 => '7' | 8 => '8' | _ => '9'

/-- The value of a decimal digit character (`99` on a non-digit). -/
def charVal : Char → Nat
  | '0' => 0 | '1' => 1 | '2' => 2 | '3' => 3 | '4' => 4
  | '5' => 5 | '6' => 6 | '7' => 7 | '8' => 8 | '9' => 9
  | _ => 99

/-- Decimal digits of `n`, least significant first; `fuel`-structured so the
kernel can evaluate it. -/
def natDigitsRev : Nat → Nat → List Nat
  | 0, _ => []
  | _ + 1, 0 => []
  | fuel + 1, n + 1 => (n + 1) % 10 :: natDigitsRev fuel ((n + 1) / 10)

/-- Decimal digit characters of `n`, most significant first (JS prints `0`
as `"0"`). -/
def natChars (n : Nat) : List Char :=
  if n = 0 then ['0'] else ((natDigitsRev n n).map digitChar).reverse

/-- Value of a little-endian digit list. -/
def ofDigs : List Nat → Nat
  | [] => 0
  | d :: ds => d + 10 * ofDigs ds

/-- Value of a big-endian digit-character list. -/
def charsVal (cs : List Char) : Nat := ofDigs ((cs.map charVal).reverse)

/-- `n` zero-padded on the left to `width` digit characters. -/
def padChars (width : Nat) (n : Nat) : List Char :=
  List.replicate (width - (natChars n).length) '0' ++ natChars n

/-- Whether `a` is a prefix of `s`, by character comparison (self-contained). -/
def chPrefix : List Char → List Char → Bool
  | [], _ => true
  | _ :: _, [] => false
  | a :: as, b :: bs => a = b && chPrefix as bs

/-- The remainder of `s` after the first occurrence of the marker `m`
(`none` when `m` never occurs). -/
def splitAtMarker (m : List Char) : List Char → Option (List Char)
  | [] => if chPrefix m [] then some [] else none
  | c :: cs =>
    if chPrefix m (c :: cs) then some ((c :: cs).drop m.length)
    else splitAtMarker m cs

/-- Whether the character sequence `needle` occurs inside `hay`. -/
def containsSeq (needle hay : List Char) : Bool :=
  (splitAtMarker needle hay).isSome

/-! ### JS number printing (`toFixed`, `Number.prototype.toString`) -/

/-- The scaled integer underlying `q.toFixed(p)`: ECMA-262 rounds the
magnitude to the nearest multiple of `10 ^ (-p)`, ties away from zero,
and re-attaches the sign. -/
def jsFixScaled (p : Nat) (q : ℚ) : Int :=
  if 0 ≤ q then Int.floor (q * 10 ^ p + 1 / 2)
  else - Int.floor (-q * 10 ^ p + 1 / 2)

/-- The characters of `q.toFixed(p)` (sign, integer part, a dot, exactly
`p` fraction digits). -/
def fixedChars (p : Nat) (q : ℚ) : List Char :=
  (if q < 0 then ['-'] else []) ++
    natChars ((jsFixScaled p q).natAbs / 10 ^ p) ++
    '.' :: padChars p ((jsFixScaled p q).natAbs % 10 ^ p)

/-- `circle.getLatLng().lat.toFixed(4)` and friends. -/
def renderFixed4 (x : DecNum) : String := String.mk (fixedChars 4 x.toRat)

/-- Strip trailing decimal zeros, as JS `toString` prints the shortest
decimal form of a finite-decimal value. -/
def normAux : Int → Nat → DecNum
  | m, 0 => ⟨m, 0⟩
  | m, k + 1 => if m % 10 = 0 then normAux (m / 10) k else ⟨m, k + 1⟩

/-- The characters of the JS string conversion of the number `x`
(template-literal interpolation `${radius}`). -/
def numChars (x : DecNum) : List Char :=
  (if (normAux x.mant x.exp).mant < 0 then ['-'] else []) ++
    (if (normAux x.mant x.exp).exp = 0 then
      natChars (normAux x.mant x.exp).mant.natAbs
     else
      natChars ((normAux x.mant x.exp).mant.natAbs / 10 ^ (normAux x.mant x.exp).exp) ++
        '.' :: padChars (normAux x.mant x.exp).exp
          ((normAux x.mant x.exp).mant.natAbs % 10 ^ (normAux x.mant x.exp).exp))

/-- JS string conversion of a number (`${radius}` in a template literal). -/
def renderNum (x : DecNum) : String := String.mk (numChars x)

/-! ### Parsing decimal literals back out of a query string -/

/-- JS whitespace characters that occur in the query templates. -/
def jsWS (c : Char) : Bool := c == ' ' || c == '\n'

/-- Value of an unsigned decimal literal `digits[.digits]`. -/
def parseUnsigned (cs : List Char) : ℚ :=
  (charsVal (cs.takeWhile fun c => !(c == '.')) : ℚ) +
    (charsVal ((cs.dropWhile fun c => !(c == '.')).tail) : ℚ) /
      (10 : ℚ) ^ ((cs.dropWhile fun c => !(c == '.')).tail).length

/-- Value of a signed decimal literal. -/
def parseDecChars (cs : List Char) : ℚ :=
  if cs.head? = some '-' then - parseUnsigned cs.tail else parseUnsigned cs

/-- Characters a printed number can contain. -/
def numCharClass (c : Char) : Prop := charVal c < 10 ∨ c = '-' ∨ c = '.'

/-! ### The editable circle, its caption and the subway query
(`createBaseMap`, `setupSelectionHandlers`, `updateQuery`, `updateCaption`) -/

/-- The editable circle geometry, as read from the Leaflet widget. -/
structure Circle where
  lat : DecNum
  lng : DecNum
  radius : DecNum
  deriving DecidableEq, Repr

/-- `L.circle(cusp, 1000, options={editable: true})` with
`cusp = [40.692908, -73.9896452]`. -/
def initCircle : Circle :=
  { lat := ⟨40692908, 6⟩, lng := ⟨-739896452, 7⟩, radius := ⟨1000, 0⟩ }

/-- The fixed text of the `updateQuery` template up to the interpolated
latitude (source lines 461–465). -/
def subwayQueryPre : String :=
  "SELECT *\n                      FROM huyvo.ourdata\n                     WHERE line like '%F%'\n                       AND ST_DWithin(the_geom::geography,\n                                      CDB_LatLng("

/-- The template text between the longitude and the radius. -/
def subwayQueryMid : String :=
  ")::geography,\n                                      "

/-- The template text after the radius. -/
def subwayQueryPost : String := ")\n          "

/-- The query `updateQuery` builds from the circle at commit time:
`lat`/`lng` go through `.toFixed(4)`, the radius is interpolated as-is. -/
def subwayQuery (c : Circle) : String :=
  subwayQueryPre ++ renderFixed4 c.lat ++ "," ++ renderFixed4 c.lng ++
    subwayQueryMid ++ renderNum c.radius ++ subwayQueryPost

/-- Modelled from the spec: `L.GeometryUtil.readableDistance(d, true)` is
Leaflet.draw library code, not part of this repository; in metric mode it
prints `(d/1000).toFixed(2) + " km"` for distances above 1000 and
`Math.ceil(d) + " m"` otherwise. -/
def readableDistance (x : DecNum) : String :=
  if 1000 < x.toRat then String.mk (fixedChars 2 (x.toRat / 1000)) ++ " km"
  else
    (if Int.ceil x.toRat < 0 then "-" else "") ++
      String.mk (natChars (Int.ceil x.toRat).natAbs) ++ " m"

/-- The info-box HTML `updateCaption` renders from the current circle
(source lines 476–479). -/
def captionFor (c : Circle) : String :=
  "<table style='width:100%'>\n                   <tr><th>Coords</th><td>" ++
    renderFixed4 c.lat ++ "," ++ renderFixed4 c.lng ++
    "</td></tr>\n                   <tr><th>Radius</th><td>" ++
    readableDistance c.radius ++
    "</td></tr>\n                   </table>"

/-- The geometry-edit and commit events `setupSelectionHandlers` listens
to; an edit event carries the widget's circle geometry at that moment. -/
inductive SelEvent where
  | editMove (c : Circle)
  | editResize (c : Circle)
  | mouseup
  deriving DecidableEq, Repr

def SelEvent.isEdit : SelEvent → Bool
  | editMove _ => true
  | editResize _ => true
  | mouseup => false

/-- The observable state of the selection controller: the circle widget,
the `circleUpdated` dirty flag, the info-box caption, and the queries
pushed to the subway SQL source (oldest first). -/
structure SelState where
  circle : Circle
  circleUpdated : Bool
  caption : String
  queries : List String
  deriving DecidableEq, Repr

/-- The state after `setupSelectionHandlers` runs: `circleUpdated` is
initialized to `true` and `updateQueryStatus(null)` has refreshed the
caption once; no query has been pushed yet. -/
def initSelState : SelState :=
  { circle := initCircle
    circleUpdated := true
    caption := captionFor initCircle
    queries := [] }

/-- One controller step.  EDITMOVE/EDITRESIZE run `updateQueryStatus`:
set the dirty flag and refresh the caption from the current geometry,
unconditionally.  `mouseup` runs `updateQuery`: only when the flag is set,
clear it, read the circle and push the rebuilt query to the subway
source. -/
def selStep (s : SelState) : SelEvent → SelState
  | SelEvent.editMove c =>
    { s with circle := c, circleUpdated := true, caption := captionFor c }
  | SelEvent.editResize c =>
    { s with circle := c, circleUpdated := true, caption := captionFor c }
  | SelEvent.mouseup =>
    if s.circleUpdated then
      { s with
        circleUpdated := false
        queries := s.queries ++ [subwayQuery s.circle] }
    else s

/-- Run a sequence of events through the controller. -/
def selRun (s : SelState) (es : List SelEvent) : SelState := es.foldl selStep s

/-! ### The Carto views and the one-shot chart subscription
(`createChartFromCarto`) -/

/-- The initial query of the restaurant SQL source `resData`
(source lines 90–93). -/
def resDataInitQuery : String :=
  "\n    SELECT *\n      FROM huyvo.nyc_restaurant_grades\n  "

/-- The configuration of a `carto.dataview.Category`. -/
structure CategoryViewConfig where
  column : String
  operation : String
  limit : Nat
  deriving DecidableEq, Repr

/-- `new carto.dataview.Category(resData, 'cuisine', {operation: COUNT, limit: 1000})`. -/
def totalViewConfig : CategoryViewConfig :=
  { column := "cuisine", operation := "COUNT", limit := 1000 }

/-- `new carto.dataview.Category(resData, 'zipcode', {operation: COUNT, limit: 1000})`. -/
def zipViewConfig : CategoryViewConfig :=
  { column := "zipcode", operation := "COUNT", limit := 1000 }

/-- Whether `initBarChart` is still attached to `totalView`'s `dataChanged`
signal, and how many times `createChart` has run. -/
structure ChartSession where
  subscribed : Bool
  chartBuilds : Nat
  deriving DecidableEq, Repr

/-- Right after `.on('dataChanged', initBarChart)`: attached, no build yet. -/
def initChartSession : ChartSession := { subscribed := true, chartBuilds := 0 }

/-- One `dataChanged` delivery of the category aggregate: while
`initBarChart` is attached it runs `createChart` and then removes itself
with `totalView.off('dataChanged', initBarChart)`; afterwards deliveries
reach no handler. -/
def deliverCategoryData (s : ChartSession) : ChartSession :=
  if s.subscribed then
    { subscribed := false, chartBuilds := s.chartBuilds + 1 }
  else s

/-- `n` successive `dataChanged` deliveries. -/
def deliverN : Nat → ChartSession → ChartSession
  | 0, s => s
  | n + 1, s => deliverN n (deliverCategoryData s)

/-! ### The bar chart (`createChart`) and its click handler -/

/-- `createChart` line 162: `data = byCuisine.slice(0, 25)` — the pairs
actually drawn as bars, in delivery order. -/
def chartBars (byCuisine : List (String × ℚ)) : List (String × ℚ) :=
  byCuisine.take 25

/-- The click-handler query template up to the interpolated cuisine key
(source lines 217–221). -/
def cuisineQueryPre : String :=
  "\n          SELECT *\n            FROM htv210.nyc_restaurant_grades\n           WHERE cuisine='"

/-- The template text after the key. -/
def cuisineQueryPost : String := "'\n        "

/-- The query the bar-click handler builds for a clicked cuisine key. -/
def cuisineQuery (key : String) : String :=
  cuisineQueryPre ++ key ++ cuisineQueryPost

/-- The restaurant source's pushed queries (oldest first) and the
selection's cuisine label. -/
structure ResState where
  queries : List String
  cuisine : String
  deriving DecidableEq, Repr

/-- The bar `click` handler: build the cuisine query, `setQuery` it on the
restaurant source, and store the key in the selection. -/
def clickBar (s : ResState) (key : String) : ResState :=
  { queries := s.queries ++ [cuisineQuery key], cuisine := key }

/-- The table name referenced by the first `FROM` clause of a query. -/
def fromTable (q : String) : Option String :=
  match splitAtMarker "FROM ".data q.data with
  | none => none
  | some r => some (String.mk (r.takeWhile fun c => !(jsWS c)))

/-! ### The map redraw (`updateMap`, source lines 356–405) -/

/-- The selection object: current cuisine label and per-zipcode counts. -/
structure Selection where
  cuisine : String
  data : List (String × ℚ)
  deriving DecidableEq, Repr

/-- `d3.max(data, d => d[1])`: `undefined` on an empty sequence. -/
def d3Max (l : List ℚ) : Option ℚ :=
  match l with
  | [] => none
  | x :: xs => some (xs.foldl max x)

/-- `d3.range(start, stop, step)` with possibly-`NaN` stop/step: the count
is `max(0, ceil((stop-start)/step)) | 0`, and `NaN` (from an undefined
operand or a zero step) collapses it to zero elements. -/
def d3Range (start : ℚ) (stop step : Option ℚ) : List ℚ :=
  match stop, step with
  | some b, some st =>
    if st = 0 then []
    else (List.range (Int.ceil ((b - start) / st)).toNat).map
      (fun i => start + (i : ℚ) * st)
  | _, _ => []

/-- `d3.schemeBlues[5]`. -/
def schemeBlues5 : List String :=
  ["#eff3ff", "#bdd7e7", "#6baed6", "#3182bd", "#08519c"]

/-- `d3.bisectRight` on an ascending list: the number of leading elements
`≤ x` (all domains built here are ascending). -/
def bisectRight (dom : List ℚ) (x : ℚ) : Nat :=
  (dom.takeWhile fun t => decide (t ≤ x)).length

/-- `d3.scaleThreshold().domain(dom).range(rng)` applied to `x`: d3
bisects within the first `min(dom.length, rng.length − 1)` thresholds, and
an out-of-range color lookup would be `undefined` (`none`). -/
def scaleThreshold (dom : List ℚ) (rng : List String) (x : ℚ) : Option String :=
  rng.get? (bisectRight (dom.take (min dom.length (rng.length - 1))) x)

/-- JS truthiness fixup `v ? v : alt` on a possibly-undefined number
(`undefined` and `0` are both falsy). -/
def fixTruthy (v : Option ℚ) (alt : ℚ) : ℚ :=
  match v with
  | none => alt
  | some q => if q = 0 then alt else q

/-- `Math.round` (half toward `+∞`), as `interpolateRound` applies it. -/
def jsRound (q : ℚ) : Int := Int.floor (q + 1 / 2)

/-- `d3.scaleLinear().domain([0, hi]).rangeRound([50, 300])`: a degenerate
domain makes d3 interpolate every input at `t = 1/2`. -/
def xScale (hi : ℚ) (v : ℚ) : Int :=
  if hi = 0 then jsRound (50 + 1 / 2 * (300 - 50))
  else jsRound (50 + v / hi * (300 - 50))

/-- `color.invertExtent` for the `i`-th range color:
`[domain[i−1], domain[i]]`, JS out-of-bounds indexing being `undefined`. -/
def invExtent (dom : List ℚ) (i : Nat) : Option ℚ × Option ℚ :=
  (if i = 0 then none else dom.get? (i - 1), dom.get? i)

/-- `maxCount = d3.max(data, d => d[1])`. -/
def selMaxCount (sel : Selection) : Option ℚ :=
  d3Max (sel.data.map fun d => d.2)

/-- `color.domain()`: `d3.range(0, maxCount, maxCount/steps)` with
`steps = 5`. -/
def selColorDomain (sel : Selection) : List ℚ :=
  d3Range 0 (selMaxCount sel) ((selMaxCount sel).map fun m => m / 5)

/-- The color the redraw assigns to a count value. -/
def mapColorAt (sel : Selection) (v : ℚ) : Option String :=
  scaleThreshold (selColorDomain sel) schemeBlues5 v

/-- Everything `updateMap` writes to the screen. -/
structure MapRender where
  maxCount : Option ℚ
  colorDomain : List ℚ
  fills : List (String × Option String)
  exitFill : String
  legendBoxes : List (ℚ × ℚ)
  legendRects : List (Int × Int × Option String)
  tickValues : List ℚ
  caption : String
  deriving DecidableEq, Repr

/-- The map redraw.  Every JS step here yields a value (`d3.max` of an
empty sequence is `undefined`, which flows through division, `d3.range`
and the `?:` fixups as modelled above), so the redraw is total: joined
features are filled through the threshold scale, exiting features get
fill `"none"`, and the legend is rebuilt from `invertExtent` with the
`d[0]?d[0]:x.domain()[0]` / `d[1]?d[1]:x.domain()[1]` fixups. -/
def updateMap (sel : Selection) : MapRender :=
  let maxCount := selMaxCount sel
  let dom := selColorDomain sel
  let xhi := fixTruthy maxCount 0
  let boxes := (List.range schemeBlues5.length).map fun i =>
    (fixTruthy (invExtent dom i).1 0, fixTruthy (invExtent dom i).2 xhi)
  { maxCount := maxCount
    colorDomain := dom
    fills := sel.data.map fun d => (d.1, mapColorAt sel d.2)
    exitFill := "none"
    legendBoxes := boxes
    legendRects := boxes.map fun b =>
      (xScale xhi b.1, xScale xhi b.2 - xScale xhi b.1, mapColorAt sel b.1)
    tickValues := dom
    caption := "Number of " ++ sel.cuisine ++ " Restaurants" }

/-- The fill `updateMap` gives the feature keyed `key` (`none` = the key is
not in the joined data, i.e. the feature exits and is filled `"none"`). -/
def fillOf (sel : Selection) (key : String) : Option (Option String) :=
  ((updateMap sel).fills.find? fun p => p.1 == key).map fun p => p.2

/-! ### The round-trip parser for the subway query (test-harness side) -/

/-- The text after the first `CDB_LatLng(` is `lat,lng)::geography,` then
whitespace, then the radius and a closing parenthesis: the latitude is
everything before the comma, the longitude everything before the closing
parenthesis, and the radius sits between the whitespace after
`)::geography,` and the final parenthesis. -/
def parseAfterMarker (r1 : List Char) : Option (ℚ × ℚ × ℚ) :=
  if chPrefix ")::geography,".data
      (((r1.dropWhile fun c => !(c == ',')).tail).dropWhile fun c => !(c == ')')) then
    some (parseDecChars (r1.takeWhile fun c => !(c == ',')),
      parseDecChars
        (((r1.dropWhile fun c => !(c == ',')).tail).takeWhile fun c => !(c == ')')),
      parseDecChars
        ((((((r1.dropWhile fun c => !(c == ',')).tail).dropWhile fun c => !(c == ')')).drop
            ")::geography,".data.length).dropWhile jsWS).takeWhile fun c => !(c == ')')))
  else none

/-- Modelled from the spec: the repository has no query parser — the
round-trip property assumes "a test harness owns both ends".  This parser
extracts the three numeric literals of `updateQuery`'s template,
`CDB_LatLng(lat,lng)::geography, radius)`, from the built query text. -/
def parseSubwayQuery (s : String) : Option (ℚ × ℚ × ℚ) :=
  match splitAtMarker "CDB_LatLng(".data s.data with
  | none => none
  | some r1 => parseAfterMarker r1

/-- The concrete counts of the C4 scenario. -/
def c4sel : Selection :=
  ⟨"All", [("10001", 5), ("10002", 0), ("10003", 12)]⟩

lemma charVal_digitChar {d : Nat} (h : d < 10) : charVal (digitChar d) = d := by
  interval_cases d <;> rfl

lemma charVal_digitChar_lt (d : Nat) : charVal (digitChar d) < 10 := by
  unfold digitChar
  split <;> decide

lemma ofDigs_natDigitsRev : ∀ fuel n, n ≤ fuel → ofDigs (natDigitsRev fuel n) = n
  | 0, n, h => by
    have : n = 0 := Nat.le_zero.mp h
    simp [this, natDigitsRev, ofDigs]
  | fuel + 1, 0, _ => by simp [natDigitsRev, ofDigs]
  | fuel + 1, n + 1, h => by
    have hlt : (n + 1) / 10 < n + 1 := Nat.div_lt_self (Nat.succ_pos n) (by norm_num)
    have hle : (n + 1) / 10 ≤ fuel := by omega
    rw [natDigitsRev, ofDigs, ofDigs_natDigitsRev fuel ((n + 1) / 10) hle]
    omega

lemma natDigitsRev_lt : ∀ fuel n, ∀ d ∈ natDigitsRev fuel n, d < 10
  | 0, _, d, hd => by simp [natDigitsRev] at hd
  | fuel + 1, 0, d, hd => by simp [natDigitsRev] at hd
  | fuel + 1, n + 1, d, hd => by
    rw [natDigitsRev] at hd
    rcases List.mem_cons.mp hd with h | h
    · subst h; exact Nat.mod_lt _ (by norm_num)
    · exact natDigitsRev_lt fuel ((n + 1) / 10) d h

lemma natChars_digit {n : Nat} : ∀ c ∈ natChars n, charVal c < 10 := by
  intro c hc
  unfold natChars at hc
  by_cases h : n = 0
  · simp [h] at hc; subst hc; decide
  · simp [h, List.mem_reverse, List.mem_map] at hc
    obtain ⟨d, _, rfl⟩ := hc
    exact charVal_digitChar_lt d

lemma natChars_ne_nil (n : Nat) : natChars n ≠ [] := by
  unfold natChars
  by_cases h : n = 0
  · simp [h]
  · simp [h]
    intro hcon
    rcases n with _ | m
    · exact h rfl
    · rw [natDigitsRev] at hcon
      simp at hcon

lemma map_charVal_digitChar : ∀ l : List Nat, (∀ d ∈ l, d < 10) →
    l.map (fun d => charVal (digitChar d)) = l := by
  intro l
  induction l with
  | nil => intro _; rfl
  | cons d ds ih =>
    intro h
    have hd : d < 10 := h d (List.mem_cons_self d ds)
    simp only [List.map_cons, charVal_digitChar hd,
      ih fun e he => h e (List.mem_cons_of_mem d he)]

lemma charsVal_natChars (n : Nat) : charsVal (natChars n) = n := by
  unfold natChars charsVal
  by_cases h : n = 0
  · simp [h]; rfl
  · simp only [h, if_false]
    rw [List.map_reverse, List.reverse_reverse, List.map_map]
    have hmap := map_charVal_digitChar (natDigitsRev n n) (natDigitsRev_lt n n)
    rw [Function.comp_def, hmap, ofDigs_natDigitsRev n n (le_refl n)]

lemma ofDigs_append (a b : List Nat) :
    ofDigs (a ++ b) = ofDigs a + 10 ^ a.length * ofDigs b := by
  induction a with
  | nil => simp [ofDigs]
  | cons d ds ih => simp [ofDigs, ih]; ring

lemma ofDigs_replicate_zero (k : Nat) : ofDigs (List.replicate k 0) = 0 := by
  induction k with
  | zero => rfl
  | succ m ih => simp [List.replicate, ofDigs, ih]

lemma charsVal_padChars (w n : Nat) : charsVal (padChars w n) = n := by
  unfold padChars charsVal
  rw [List.map_append, List.reverse_append, ofDigs_append]
  have hz : (List.replicate (w - (natChars n).length) '0').map charVal
      = List.replicate (w - (natChars n).length) 0 := by
    rw [List.map_replicate]; rfl
  rw [hz, List.reverse_replicate, ofDigs_replicate_zero]
  have := charsVal_natChars n
  unfold charsVal at this
  omega

lemma natDigitsRev_length_le : ∀ fuel n w, n < 10 ^ w →
    (natDigitsRev fuel n).length ≤ w
  | 0, _, _, _ => by simp [natDigitsRev]
  | fuel + 1, 0, _, _ => by simp [natDigitsRev]
  | fuel + 1, n + 1, w, h => by
    rcases w with _ | v
    · simp at h
    · rw [natDigitsRev]
      simp only [List.length_cons]
      have hdiv : (n + 1) / 10 < 10 ^ v := by
        have : n + 1 < 10 ^ v * 10 := by
          rw [pow_succ] at h; exact h
        exact Nat.div_lt_of_lt_mul (by omega)
      have := natDigitsRev_length_le fuel ((n + 1) / 10) v hdiv
      omega

lemma natChars_length_le {n w : Nat} (hw : 1 ≤ w) (hn : n < 10 ^ w) :
    (natChars n).length ≤ w := by
  unfold natChars
  by_cases h : n = 0
  · simpa [h] using hw
  · simp only [h, if_false, List.length_reverse, List.length_map]
    exact natDigitsRev_length_le n n w hn

lemma padChars_length {w n : Nat} (hw : 1 ≤ w) (hn : n < 10 ^ w) :
    (padChars w n).length = w := by
  unfold padChars
  have := natChars_length_le hw hn
  simp [List.length_append, List.length_replicate]
  omega

lemma padChars_digit {w n : Nat} : ∀ c ∈ padChars w n, charVal c < 10 := by
  intro c hc
  unfold padChars at hc
  rcases List.mem_append.mp hc with h | h
  · have := List.eq_of_mem_replicate h
    subst this; decide
  · exact natChars_digit c h

/-! ### Generic list-scanning helpers (used by the query-string parsers) -/

lemma takeWhile_append_all {α : Type} {p : α → Bool} :
    ∀ {a : List α}, (∀ c ∈ a, p c = true) → ∀ b,
    (a ++ b).takeWhile p = a ++ b.takeWhile p := by
  intro a
  induction a with
  | nil => intro _ b; rfl
  | cons x xs ih =>
    intro h b
    have hx : p x = true := h x (List.mem_cons_self x xs)
    simp only [List.cons_append, List.takeWhile_cons, hx, if_true]
    rw [ih (fun c hc => h c (List.mem_cons_of_mem x hc)) b]

lemma dropWhile_append_all {α : Type} {p : α → Bool} :
    ∀ {a : List α}, (∀ c ∈ a, p c = true) → ∀ b,
    (a ++ b).dropWhile p = b.dropWhile p := by
  intro a
  induction a with
  | nil => intro _ b; rfl
  | cons x xs ih =>
    intro h b
    have hx : p x = true := h x (List.mem_cons_self x xs)
    simp only [List.cons_append, List.dropWhile_cons, hx, if_true]
    exact ih (fun c hc => h c (List.mem_cons_of_mem x hc)) b

lemma takeWhile_cons_false {α : Type} {p : α → Bool} {c : α} (h : p c = false)
    (t : List α) : (c :: t).takeWhile p = [] := by
  simp [List.takeWhile_cons, h]

lemma dropWhile_cons_false {α : Type} {p : α → Bool} {c : α} (h : p c = false)
    (t : List α) : (c :: t).dropWhile p = c :: t := by
  simp [List.dropWhile_cons, h]

lemma chPrefix_append : ∀ a b : List Char, chPrefix a (a ++ b) = true := by
  intro a
  induction a with
  | nil => intro b; rfl
  | cons x xs ih => intro b; simp [chPrefix, ih]

lemma chPrefix_length : ∀ {a s : List Char}, chPrefix a s = true →
    a.length ≤ s.length := by
  intro a
  induction a with
  | nil => intro s _; simp
  | cons x xs ih =>
    intro s h
    rcases s with _ | ⟨y, ys⟩
    · simp [chPrefix] at h
    · simp only [chPrefix, Bool.and_eq_true] at h
      have := ih h.2
      simp only [List.length_cons]
      omega

lemma chPrefix_iff_exists : ∀ {a s : List Char}, chPrefix a s = true →
    s = a ++ s.drop a.length := by
  intro a
  induction a with
  | nil => intro s _; simp
  | cons x xs ih =>
    intro s h
    rcases s with _ | ⟨y, ys⟩
    · simp [chPrefix] at h
    · simp only [chPrefix, Bool.and_eq_true, decide_eq_true_eq] at h
      obtain ⟨rfl, h2⟩ := h
      simpa [List.cons_append] using ih h2

lemma splitAtMarker_length : ∀ {m a : List Char} {r},
    splitAtMarker m a = some r → m.length ≤ a.length := by
  intro m a
  induction a with
  | nil =>
    intro r h
    unfold splitAtMarker at h
    by_cases hp : chPrefix m [] = true
    · exact chPrefix_length hp
    · simp [hp] at h
  | cons c cs ih =>
    intro r h
    unfold splitAtMarker at h
    by_cases hp : chPrefix m (c :: cs) = true
    · exact chPrefix_length hp
    · simp only [hp, if_false] at h
      have := ih h
      simp only [List.length_cons]
      omega

lemma chPrefix_of_append_le {m a : List Char} (b : List Char)
    (hlen : m.length ≤ a.length) (h : chPrefix m (a ++ b) = true) :
    chPrefix m a = true := by
  induction m generalizing a with
  | nil => rfl
  | cons x xs ih =>
    rcases a with _ | ⟨y, ys⟩
    · simp at hlen
    · simp only [List.cons_append, chPrefix, Bool.and_eq_true] at h ⊢
      exact ⟨h.1, ih (by simpa using hlen) h.2⟩

lemma splitAtMarker_append {m : List Char} :
    ∀ {a : List Char} {r}, splitAtMarker m a = some r → ∀ b,
    splitAtMarker m (a ++ b) = some (r ++ b) := by
  intro a
  induction a with
  | nil =>
    intro r h b
    unfold splitAtMarker at h
    by_cases hp : chPrefix m [] = true
    · simp only [hp, if_true, Option.some.injEq] at h
      subst h
      have hm : m = [] := by
        cases m with
        | nil => rfl
        | cons x xs => simp [chPrefix] at hp
      subst hm
      cases b with
      | nil => rfl
      | cons c cs => simp [splitAtMarker, chPrefix]
    · simp [hp] at h
  | cons c cs ih =>
    intro r h b
    unfold splitAtMarker at h
    by_cases hp : chPrefix m (c :: cs) = true
    · simp only [hp, if_true, Option.some.injEq] at h
      subst h
      have hlen : m.length ≤ (c :: cs).length := chPrefix_length hp
      have hp2 : chPrefix m ((c :: cs) ++ b) = true := by
        rw [chPrefix_iff_exists hp, List.append_assoc]
        exact chPrefix_append m _
      show splitAtMarker m (c :: (cs ++ b)) = _
      unfold splitAtMarker
      rw [← List.cons_append, hp2]
      simp only [if_true, Option.some.injEq]
      rw [List.drop_append_eq_append_drop]
      have : m.length - (c :: cs).length = 0 := by omega
      rw [this, List.drop_zero]
    · simp only [hp, if_false] at h
      have hlen : m.length ≤ cs.length := splitAtMarker_length h
      have hp2 : chPrefix m ((c :: cs) ++ b) = false := by
        by_contra hcon
        have htrue : chPrefix m ((c :: cs) ++ b) = true := by
          revert hcon
          cases chPrefix m ((c :: cs) ++ b) <;> simp
        have : chPrefix m (c :: cs) = true :=
          chPrefix_of_append_le b (by simp; omega) htrue
        exact hp this
      show splitAtMarker m (c :: (cs ++ b)) = _
      unfold splitAtMarker
      rw [← List.cons_append, hp2]
      simp only [Bool.false_eq_true, if_false]
      exact ih h b

lemma beq_false_of_charVal {c x : Char} (h : charVal c < 10)
    (hx : charVal x = 99) : (c == x) = false := by
  cases hb : c == x
  · rfl
  · have hc : c = x := by
      have : (c == x) = true := hb
      exact beq_iff_eq.mp this
    subst hc
    omega

lemma digit_not_dot {c : Char} (h : charVal c < 10) : (!(c == '.')) = true := by
  rw [beq_false_of_charVal h (show charVal '.' = 99 from rfl)]; rfl

lemma parseUnsigned_intfrac (a b p : Nat) (hp : 1 ≤ p) (hb : b < 10 ^ p) :
    parseUnsigned (natChars a ++ '.' :: padChars p b) =
      (a : ℚ) + (b : ℚ) / (10 : ℚ) ^ p := by
  unfold parseUnsigned
  have hall : ∀ c ∈ natChars a, (fun c => !(c == '.')) c = true :=
    fun c hc => digit_not_dot (natChars_digit c hc)
  rw [takeWhile_append_all hall, dropWhile_append_all hall,
    takeWhile_cons_false (by rfl), dropWhile_cons_false (by rfl)]
  simp only [List.append_nil, List.tail_cons]
  rw [charsVal_natChars, charsVal_padChars, padChars_length hp hb]

lemma parseUnsigned_int (a : Nat) : parseUnsigned (natChars a) = (a : ℚ) := by
  unfold parseUnsigned
  have hall : ∀ c ∈ natChars a, (fun c => !(c == '.')) c = true :=
    fun c hc => digit_not_dot (natChars_digit c hc)
  have h1 : (natChars a).takeWhile (fun c => !(c == '.')) = natChars a := by
    have := takeWhile_append_all hall []
    simpa using this
  have h2 : (natChars a).dropWhile (fun c => !(c == '.')) = [] := by
    have := dropWhile_append_all hall []
    simpa using this
  rw [h1, h2, charsVal_natChars]
  simp [charsVal, ofDigs]

lemma parseDecChars_of_digit_head {cs : List Char}
    (h : ∃ c t, cs = c :: t ∧ charVal c < 10) :
    parseDecChars cs = parseUnsigned cs := by
  obtain ⟨c, t, rfl, hlt⟩ := h
  unfold parseDecChars
  have : (c == '-') = false := beq_false_of_charVal hlt rfl
  have hne : c ≠ '-' := by
    intro hcon; subst hcon; simp at this
  simp [List.head?, hne]

lemma exists_head_digit_append (n : Nat) (rest : List Char) :
    ∃ c t, natChars n ++ rest = c :: t ∧ charVal c < 10 := by
  rcases hne : natChars n with _ | ⟨c, t⟩
  · exact absurd hne (natChars_ne_nil n)
  · refine ⟨c, t ++ rest, by simp, ?_⟩
    have : c ∈ natChars n := by rw [hne]; exact List.mem_cons_self c t
    exact natChars_digit c this

lemma nat_div_add_mod_q (n p : Nat) :
    ((n / 10 ^ p : Nat) : ℚ) + ((n % 10 ^ p : Nat) : ℚ) / (10 : ℚ) ^ p =
      (n : ℚ) / (10 : ℚ) ^ p := by
  have h : ((10 : ℚ)) ^ p ≠ 0 := by positivity
  field_simp
  exact_mod_cast Nat.div_add_mod' n (10 ^ p)

lemma jsFixScaled_natAbs_pos {p : Nat} {q : ℚ} (h : 0 ≤ q) :
    ((jsFixScaled p q).natAbs : ℚ) = (jsFixScaled p q : ℚ) := by
  unfold jsFixScaled
  simp only [h, if_true]
  have hnn : (0 : ℤ) ≤ Int.floor (q * 10 ^ p + 1 / 2) := by
    apply Int.floor_nonneg.mpr
    positivity
  rw [Int.cast_natAbs]
  exact_mod_cast congrArg (fun z : ℤ => (z : ℚ)) (abs_of_nonneg hnn)

lemma jsFixScaled_natAbs_neg {p : Nat} {q : ℚ} (h : ¬ 0 ≤ q) :
    ((jsFixScaled p q).natAbs : ℚ) = - (jsFixScaled p q : ℚ) := by
  unfold jsFixScaled
  simp only [h, if_false]
  have hq : (0 : ℚ) ≤ -q := by linarith [lt_of_not_ge h]
  have hnn : (0 : ℤ) ≤ Int.floor (-q * 10 ^ p + 1 / 2) := by
    apply Int.floor_nonneg.mpr
    positivity
  rw [Int.natAbs_neg, Int.cast_natAbs, Int.cast_neg, neg_neg]
  exact_mod_cast congrArg (fun z : ℤ => (z : ℚ)) (abs_of_nonneg hnn)

/-- Parsing `q.toFixed(p)` back yields exactly the rounded value. -/
lemma parse_fixedChars (p : Nat) (q : ℚ) (hp : 1 ≤ p) :
    parseDecChars (fixedChars p q) = (jsFixScaled p q : ℚ) / (10 : ℚ) ^ p := by
  have hpow : (0 : ℚ) < 10 ^ p := by positivity
  have hmod : (jsFixScaled p q).natAbs % 10 ^ p < 10 ^ p :=
    Nat.mod_lt _ (by positivity)
  by_cases hneg : q < 0
  · have hchars : fixedChars p q =
        '-' :: (natChars ((jsFixScaled p q).natAbs / 10 ^ p) ++
          '.' :: padChars p ((jsFixScaled p q).natAbs % 10 ^ p)) := by
      unfold fixedChars
      simp [hneg]
    rw [hchars]
    unfold parseDecChars
    simp only [List.head?, List.tail_cons, if_true]
    rw [parseUnsigned_intfrac _ _ p hp hmod, nat_div_add_mod_q,
      jsFixScaled_natAbs_neg (by linarith)]
    ring
  · have hchars : fixedChars p q =
        natChars ((jsFixScaled p q).natAbs / 10 ^ p) ++
          '.' :: padChars p ((jsFixScaled p q).natAbs % 10 ^ p) := by
      unfold fixedChars
      simp [hneg]
    rw [hchars, parseDecChars_of_digit_head (exists_head_digit_append _ _),
      parseUnsigned_intfrac _ _ p hp hmod, nat_div_add_mod_q,
      jsFixScaled_natAbs_pos (le_of_not_lt hneg)]

lemma floor_half_close (y : ℚ) :
    |((Int.floor (y + 1 / 2) : ℤ) : ℚ) - y| ≤ 1 / 2 := by
  have h1 : ((Int.floor (y + 1 / 2) : ℤ) : ℚ) ≤ y + 1 / 2 := Int.floor_le _
  have h2 : y + 1 / 2 - 1 < ((Int.floor (y + 1 / 2) : ℤ) : ℚ) :=
    Int.sub_one_lt_floor _
  rw [abs_le]
  constructor <;> linarith

/-- `toFixed(p)` perturbs the value by at most half an ulp of the printed
precision. -/
lemma jsFixScaled_close (p : Nat) (q : ℚ) :
    |(jsFixScaled p q : ℚ) / (10 : ℚ) ^ p - q| ≤ 1 / (2 * 10 ^ p) := by
  have hpow : (0 : ℚ) < 10 ^ p := by positivity
  have key : ∀ z : ℤ, ∀ y : ℚ, |(z : ℚ) - y| ≤ 1 / 2 →
      |(z : ℚ) / 10 ^ p - y / 10 ^ p| ≤ 1 / (2 * 10 ^ p) := by
    intro z y hz
    have heq : (z : ℚ) / 10 ^ p - y / 10 ^ p = ((z : ℚ) - y) / 10 ^ p := by
      ring
    rw [heq, abs_div, abs_of_pos hpow]
    rw [div_le_div_iff₀ hpow (by positivity)]
    calc |(z : ℚ) - y| * (2 * 10 ^ p) ≤ (1 / 2) * (2 * 10 ^ p) := by
          apply mul_le_mul_of_nonneg_right hz; positivity
      _ = 1 * 10 ^ p := by ring
  by_cases hq : 0 ≤ q
  · have : jsFixScaled p q = Int.floor (q * 10 ^ p + 1 / 2) := by
      unfold jsFixScaled; simp [hq]
    rw [this]
    have := key (Int.floor (q * 10 ^ p + 1 / 2)) (q * 10 ^ p)
      (floor_half_close (q * 10 ^ p))
    rwa [mul_div_assoc, div_self (ne_of_gt hpow), mul_one] at this
  · have : jsFixScaled p q = - Int.floor (-q * 10 ^ p + 1 / 2) := by
      unfold jsFixScaled; simp [hq]
    rw [this]
    have hkey := key (Int.floor (-q * 10 ^ p + 1 / 2)) (-q * 10 ^ p)
      (floor_half_close (-q * 10 ^ p))
    rw [mul_div_assoc, div_self (ne_of_gt hpow), mul_one] at hkey
    rw [Int.cast_neg]
    calc |(-(Int.floor (-q * 10 ^ p + 1 / 2) : ℚ)) / 10 ^ p - q|
        = |(Int.floor (-q * 10 ^ p + 1 / 2) : ℚ) / 10 ^ p - -q| := by
          rw [← abs_neg]; congr 1; ring
      _ ≤ 1 / (2 * 10 ^ p) := hkey

lemma normAux_toRat : ∀ (k : Nat) (m : Int),
    (normAux m k).toRat = DecNum.toRat ⟨m, k⟩
  | 0, m => rfl
  | k + 1, m => by
    unfold normAux
    by_cases h : m % 10 = 0
    · simp only [h, if_true]
      rw [normAux_toRat k (m / 10)]
      unfold DecNum.toRat
      obtain ⟨c, rfl⟩ : (10 : ℤ) ∣ m := Int.dvd_of_emod_eq_zero h
      rw [Int.mul_ediv_cancel_left c (by norm_num)]
      push_cast
      rw [pow_succ]
      field_simp
      ring
    · simp [h]

/-- Parsing the JS string form of a finite-decimal number recovers its
exact value. -/
lemma parse_renderCore (m : Int) (k : Nat) :
    parseDecChars
      ((if m < 0 then ['-'] else []) ++
        (if k = 0 then natChars m.natAbs
         else natChars (m.natAbs / 10 ^ k) ++
           '.' :: padChars k (m.natAbs % 10 ^ k))) =
      (m : ℚ) / (10 : ℚ) ^ k := by
  have habs : (m.natAbs : ℚ) = |(m : ℚ)| := by
    rw [Int.cast_natAbs, Int.cast_abs]
  rcases Nat.eq_zero_or_pos k with hk | hk
  · subst hk
    simp only [if_true]
    by_cases hm : m < 0
    · simp only [hm, if_true, List.singleton_append]
      unfold parseDecChars
      simp only [List.head?, List.tail_cons, if_true]
      rw [parseUnsigned_int, habs, abs_of_neg (by exact_mod_cast hm)]
      simp
    · simp only [hm, if_false, List.nil_append]
      have hd : ∃ c t, natChars m.natAbs = c :: t ∧ charVal c < 10 := by
        rcases hne : natChars m.natAbs with _ | ⟨c, t⟩
        · exact absurd hne (natChars_ne_nil _)
        · refine ⟨c, t, rfl, ?_⟩
          have hmem : c ∈ natChars m.natAbs := by
            rw [hne]; exact List.mem_cons_self c t
          exact natChars_digit c hmem
      rw [parseDecChars_of_digit_head hd, parseUnsigned_int, habs,
        abs_of_nonneg (by exact_mod_cast le_of_not_lt hm)]
      simp
  · have hk0 : ¬ k = 0 := by omega
    have hpow : (0 : ℚ) < 10 ^ k := by positivity
    have hmod : m.natAbs % 10 ^ k < 10 ^ k := Nat.mod_lt _ (by positivity)
    simp only [hk0, if_false]
    by_cases hm : m < 0
    · simp only [hm, if_true, List.singleton_append]
      unfold parseDecChars
      simp only [List.head?, List.tail_cons, if_true]
      rw [parseUnsigned_intfrac _ _ k hk hmod, nat_div_add_mod_q, habs,
        abs_of_neg (by exact_mod_cast hm)]
      ring
    · simp only [hm, if_false, List.nil_append]
      rw [parseDecChars_of_digit_head (exists_head_digit_append _ _),
        parseUnsigned_intfrac _ _ k hk hmod, nat_div_add_mod_q, habs,
        abs_of_nonneg (by exact_mod_cast le_of_not_lt hm)]

lemma parse_numChars (x : DecNum) : parseDecChars (numChars x) = x.toRat := by
  unfold numChars
  rw [parse_renderCore (normAux x.mant x.exp).mant (normAux x.mant x.exp).exp]
  exact normAux_toRat x.exp x.mant

lemma fixedChars_class (p : Nat) (q : ℚ) :
    ∀ c ∈ fixedChars p q, numCharClass c := by
  intro c hc
  unfold fixedChars at hc
  rcases List.mem_append.mp hc with h | h
  · rcases List.mem_append.mp h with h2 | h2
    · refine Or.inr (Or.inl ?_)
      by_cases hq : q < 0
      · simpa [hq] using h2
      · simp [hq] at h2
    · exact Or.inl (natChars_digit c h2)
  · rcases List.mem_cons.mp h with h2 | h2
    · exact Or.inr (Or.inr h2)
    · exact Or.inl (padChars_digit c h2)

lemma numChars_class (x : DecNum) : ∀ c ∈ numChars x, numCharClass c := by
  intro c hc
  unfold numChars at hc
  rcases List.mem_append.mp hc with h | h
  · refine Or.inr (Or.inl ?_)
    by_cases hs : (normAux x.mant x.exp).mant < 0
    · simpa [hs] using h
    · simp [hs] at h
  · by_cases hk : (normAux x.mant x.exp).exp = 0
    · rw [if_pos hk] at h
      exact Or.inl (natChars_digit c h)
    · rw [if_neg hk] at h
      rcases List.mem_append.mp h with h2 | h2
      · exact Or.inl (natChars_digit c h2)
      · rcases List.mem_cons.mp h2 with h3 | h3
        · exact Or.inr (Or.inr h3)
        · exact Or.inl (padChars_digit c h3)

lemma numCharClass_not_comma {c : Char} (h : numCharClass c) :
    (!(c == ',')) = true := by
  rcases h with h | h | h
  · rw [beq_false_of_charVal h (show charVal ',' = 99 from rfl)]; rfl
  · subst h; rfl
  · subst h; rfl

lemma numCharClass_not_rparen {c : Char} (h : numCharClass c) :
    (!(c == ')')) = true := by
  rcases h with h | h | h
  · rw [beq_false_of_charVal h (show charVal ')' = 99 from rfl)]; rfl
  · subst h; rfl
  · subst h; rfl

lemma numCharClass_not_ws {c : Char} (h : numCharClass c) : jsWS c = false := by
  rcases h with h | h | h
  · unfold jsWS
    rw [beq_false_of_charVal h (show charVal ' ' = 99 from rfl),
      beq_false_of_charVal h (show charVal '\n' = 99 from rfl)]
    rfl
  · subst h; rfl
  · subst h; rfl

lemma numChars_head_not_ws (x : DecNum) :
    ∃ c t, numChars x = c :: t ∧ jsWS c = false := by
  rcases hne : numChars x with _ | ⟨c, t⟩
  · exfalso
    unfold numChars at hne
    rcases List.append_eq_nil.mp hne with ⟨_, h2⟩
    by_cases hk : (normAux x.mant x.exp).exp = 0
    · rw [if_pos hk] at h2
      exact natChars_ne_nil _ h2
    · rw [if_neg hk] at h2
      rcases List.append_eq_nil.mp h2 with ⟨h3, _⟩
      exact natChars_ne_nil _ h3
  · refine ⟨c, t, rfl, ?_⟩
    have hmem : c ∈ numChars x := by rw [hne]; exact List.mem_cons_self c t
    exact numCharClass_not_ws (numChars_class x c hmem)

lemma selRun_edits_queries : ∀ (es : List SelEvent) (s : SelState),
    (∀ e ∈ es, e.isEdit = true) → (selRun s es).queries = s.queries := by
  intro es
  induction es with
  | nil => intro s _; rfl
  | cons e es ih =>
    intro s h
    have he : e.isEdit = true := h e (List.mem_cons_self e es)
    have hrest : ∀ x ∈ es, x.isEdit = true :=
      fun x hx => h x (List.mem_cons_of_mem e hx)
    cases e with
    | editMove c => rw [selRun, List.foldl_cons, ← selRun, ih _ hrest]; rfl
    | editResize c => rw [selRun, List.foldl_cons, ← selRun, ih _ hrest]; rfl
    | mouseup => simp [SelEvent.isEdit] at he

lemma strData_append (a b : String) : (a ++ b).data = a.data ++ b.data := rfl

lemma strData_mk (l : List Char) : (String.mk l).data = l := rfl

lemma takeWhile_append_stop {α : Type} {p : α → Bool} :
    ∀ {a : List α}, (∃ c ∈ a, p c = false) → ∀ b,
    (a ++ b).takeWhile p = a.takeWhile p := by
  intro a
  induction a with
  | nil => intro h b; obtain ⟨c, hc, _⟩ := h; simp at hc
  | cons x xs ih =>
    intro h b
    cases hx : p x with
    | false =>
      simp only [List.cons_append, List.takeWhile_cons, hx]
      rfl
    | true =>
      obtain ⟨c, hc, hcf⟩ := h
      rcases List.mem_cons.mp hc with rfl | hmem
      · rw [hx] at hcf; cases hcf
      · simp only [List.cons_append, List.takeWhile_cons, hx, if_true]
        rw [ih ⟨c, hmem, hcf⟩ b]

lemma parseSubwayQuery_step {s : String} {r : List Char}
    (h : splitAtMarker "CDB_LatLng(".data s.data = some r) :
    parseSubwayQuery s = parseAfterMarker r := by
  unfold parseSubwayQuery
  rw [h]

/-- Applying the harness parser to the text following `CDB_LatLng(` in a
query built by `updateQuery` recovers the two rounded coordinates and the
exact radius. -/
lemma parseAfterMarker_query (c : Circle) :
    parseAfterMarker
      (fixedChars 4 c.lat.toRat ++ (',' ::
        (fixedChars 4 c.lng.toRat ++ (")::geography,".data ++
          (("\n                                      " : String).data ++
            (numChars c.radius ++ subwayQueryPost.data)))))) =
      some ((jsFixScaled 4 c.lat.toRat : ℚ) / (10 : ℚ) ^ 4,
        (jsFixScaled 4 c.lng.toRat : ℚ) / (10 : ℚ) ^ 4, c.radius.toRat) := by
  have hallA : ∀ ch ∈ fixedChars 4 c.lat.toRat,
      (fun x => !(x == ',')) ch = true :=
    fun ch hch => numCharClass_not_comma (fixedChars_class 4 _ ch hch)
  have hallB : ∀ ch ∈ fixedChars 4 c.lng.toRat,
      (fun x => !(x == ')')) ch = true :=
    fun ch hch => numCharClass_not_rparen (fixedChars_class 4 _ ch hch)
  have hallC : ∀ ch ∈ numChars c.radius,
      (fun x => !(x == ')')) ch = true :=
    fun ch hch => numCharClass_not_rparen (numChars_class _ ch hch)
  have hallW : ∀ ch ∈ ("\n                                      " : String).data,
      jsWS ch = true := by decide
  obtain ⟨c0, t0, hC0, hws⟩ := numChars_head_not_ws c.radius
  have ht1 : (fixedChars 4 c.lat.toRat ++ (',' ::
      (fixedChars 4 c.lng.toRat ++ (")::geography,".data ++
        (("\n                                      " : String).data ++
          (numChars c.radius ++ subwayQueryPost.data)))))).takeWhile
        (fun x => !(x == ',')) = fixedChars 4 c.lat.toRat := by
    rw [takeWhile_append_all hallA, @takeWhile_cons_false Char (fun x => !(x == ',')) ',' rfl, List.append_nil]
  have hd1 : (fixedChars 4 c.lat.toRat ++ (',' ::
      (fixedChars 4 c.lng.toRat ++ (")::geography,".data ++
        (("\n                                      " : String).data ++
          (numChars c.radius ++ subwayQueryPost.data)))))).dropWhile
        (fun x => !(x == ',')) = ',' ::
      (fixedChars 4 c.lng.toRat ++ (")::geography,".data ++
        (("\n                                      " : String).data ++
          (numChars c.radius ++ subwayQueryPost.data)))) := by
    rw [dropWhile_append_all hallA, @dropWhile_cons_false Char (fun x => !(x == ',')) ',' rfl]
  have ht2 : (fixedChars 4 c.lng.toRat ++ (")::geography,".data ++
      (("\n                                      " : String).data ++
        (numChars c.radius ++ subwayQueryPost.data)))).takeWhile
        (fun x => !(x == ')')) = fixedChars 4 c.lng.toRat := by
    rw [takeWhile_append_all hallB,
      show (")::geography,".data ++
        (("\n                                      " : String).data ++
          (numChars c.radius ++ subwayQueryPost.data))) = ')' ::
        ("::geography,".data ++
          (("\n                                      " : String).data ++
            (numChars c.radius ++ subwayQueryPost.data))) from rfl,
      @takeWhile_cons_false Char (fun x => !(x == ')')) ')' rfl, List.append_nil]
  have hd2 : (fixedChars 4 c.lng.toRat ++ (")::geography,".data ++
      (("\n                                      " : String).data ++
        (numChars c.radius ++ subwayQueryPost.data)))).dropWhile
        (fun x => !(x == ')')) = ")::geography,".data ++
      (("\n                                      " : String).data ++
        (numChars c.radius ++ subwayQueryPost.data)) := by
    rw [dropWhile_append_all hallB,
      show (")::geography,".data ++
        (("\n                                      " : String).data ++
          (numChars c.radius ++ subwayQueryPost.data))) = ')' ::
        ("::geography,".data ++
          (("\n                                      " : String).data ++
            (numChars c.radius ++ subwayQueryPost.data))) from rfl,
      @dropWhile_cons_false Char (fun x => !(x == ')')) ')' rfl]
  have hd3 : ((numChars c.radius ++ subwayQueryPost.data)).dropWhile jsWS =
      numChars c.radius ++ subwayQueryPost.data := by
    rw [hC0]
    exact dropWhile_cons_false hws _
  have ht3 : (numChars c.radius ++ subwayQueryPost.data).takeWhile
      (fun x => !(x == ')')) = numChars c.radius := by
    rw [takeWhile_append_all hallC,
      show subwayQueryPost.data.takeWhile (fun x => !(x == ')')) = [] from rfl,
      List.append_nil]
  unfold parseAfterMarker
  rw [hd1, List.tail_cons, hd2, ht1, ht2]
  rw [if_pos (chPrefix_append ")::geography,".data _)]
  rw [List.drop_left, dropWhile_append_all hallW, hd3, ht3]
  rw [parse_fixedChars 4 c.lat.toRat (by norm_num),
    parse_fixedChars 4 c.lng.toRat (by norm_num), parse_numChars]

lemma subwayQuery_data (c : Circle) :
    (subwayQuery c).data = subwayQueryPre.data ++
      (fixedChars 4 c.lat.toRat ++ (',' ::
        (fixedChars 4 c.lng.toRat ++ (")::geography,".data ++
          (("\n                                      " : String).data ++
            (numChars c.radius ++ subwayQueryPost.data)))))) := by
  show (subwayQueryPre ++ renderFixed4 c.lat ++ "," ++ renderFixed4 c.lng ++
      subwayQueryMid ++ renderNum c.radius ++ subwayQueryPost).data = _
  simp only [strData_append, renderFixed4, renderNum, strData_mk]
  rw [show subwayQueryMid.data = ")::geography,".data ++
      ("\n                                      " : String).data from rfl]
  simp only [List.append_assoc, List.singleton_append, List.cons_append,
    List.nil_append]

/-! ### The claims -/

/-- C1: for every sequence of geometry-edit events (at least one, the last
one leaving geometry `g`) ending in exactly one commit gesture (mouseup),
exactly one query update is pushed to the subway data source, and it is
built from the circle as read at commit time — the geometry `g` of the
last edit — whatever state the controller started in. -/
theorem c1_commit_once (s : SelState) (es : List SelEvent) (e : SelEvent)
    (g : Circle) (hes : ∀ x ∈ es, x.isEdit = true)
    (he : e = SelEvent.editMove g ∨ e = SelEvent.editResize g) :
    (selRun s (es ++ [e, SelEvent.mouseup])).queries =
        s.queries ++ [subwayQuery g] ∧
      (selRun s (es ++ [e, SelEvent.mouseup])).circle = g := by
  have hq := selRun_edits_queries es s hes
  have hrun : selRun s (es ++ [e, SelEvent.mouseup]) =
      selStep (selStep (selRun s es) e) SelEvent.mouseup := by
    unfold selRun
    rw [List.foldl_append]
    rfl
  rcases he with rfl | rfl <;>
    exact ⟨by rw [hrun]; simp [selStep, hq], by rw [hrun]; simp [selStep]⟩

/-- Witness for C1 at a concrete run: one resize then one move, then the
commit. -/
theorem c1_commit_once_witness :
    (selRun initSelState
        ([SelEvent.editResize ⟨⟨407, 1⟩, ⟨-739, 1⟩, ⟨500, 0⟩⟩] ++
          [SelEvent.editMove ⟨⟨406, 1⟩, ⟨-738, 1⟩, ⟨250, 0⟩⟩,
            SelEvent.mouseup])).queries =
        initSelState.queries ++ [subwayQuery ⟨⟨406, 1⟩, ⟨-738, 1⟩, ⟨250, 0⟩⟩] ∧
      (selRun initSelState
        ([SelEvent.editResize ⟨⟨407, 1⟩, ⟨-739, 1⟩, ⟨500, 0⟩⟩] ++
          [SelEvent.editMove ⟨⟨406, 1⟩, ⟨-738, 1⟩, ⟨250, 0⟩⟩,
            SelEvent.mouseup])).circle = ⟨⟨406, 1⟩, ⟨-738, 1⟩, ⟨250, 0⟩⟩ :=
  c1_commit_once initSelState _ _ _ (by decide) (Or.inl rfl)

/-- C2 is false as stated: in the initial state (before any edit),
`circleUpdated` is initialized to `true`, so the very first commit gesture
pushes one query update, not zero. -/
theorem c2_counterexample :
    initSelState.queries = [] ∧
      (selStep initSelState SelEvent.mouseup).queries.length = 1 :=
  ⟨rfl, rfl⟩

/-- C2 (amended): in every state reached by a commit gesture — so in every
state in which no geometry-edit has occurred since the last commit — a
further commit gesture is a no-op and issues zero query updates; the
initial state is the exception, since the dirty flag starts `true` there
and the first commit pushes one query even without any prior edit. -/
theorem c2_amended (s : SelState) :
    selStep (selStep s SelEvent.mouseup) SelEvent.mouseup =
      selStep s SelEvent.mouseup := by
  by_cases h : s.circleUpdated = true
  · simp [selStep, h]
  · simp [selStep, h]

lemma deliverN_unsub : ∀ (n : Nat) (b : Nat),
    deliverN n ⟨false, b⟩ = ⟨false, b⟩
  | 0, _ => rfl
  | n + 1, b => by
    show deliverN n (deliverCategoryData ⟨false, b⟩) = _
    rw [show deliverCategoryData ⟨false, b⟩ = ⟨false, b⟩ from rfl]
    exact deliverN_unsub n b

/-- C3: over a whole session, however many times the restaurant source's
query changes afterwards (`n` deliveries of the category aggregate), the
bar chart is built exactly `min n 1` times — at most once, on the first
delivery — and that first delivery cancels the subscription. -/
theorem c3_chart_once (n : Nat) :
    (deliverN n initChartSession).chartBuilds = min n 1 ∧
      (deliverN n initChartSession).subscribed = decide (n = 0) := by
  cases n with
  | zero => exact ⟨rfl, rfl⟩
  | succ m =>
    have hstep : deliverN (m + 1) initChartSession = ⟨false, 1⟩ := by
      show deliverN m (deliverCategoryData initChartSession) = _
      rw [show deliverCategoryData initChartSession = ⟨false, 1⟩ from rfl]
      exact deliverN_unsub m 1
    rw [hstep]
    constructor
    · show 1 = min (m + 1) 1
      omega
    · show false = decide (m + 1 = 0)
      simp

/-- C4 is false as stated: `36/5` and `48/5` lie in the fourth and fifth of
the claimed five equal-width bins of `[0, 12)`, yet the scale colors them
identically — d3's threshold scale honours at most `range.length − 1 = 4`
of the five supplied thresholds, so `[0, 12)` is split into only four color
classes (and the ramp's first color is reserved for negative values). -/
theorem c4_counterexample :
    (3 * (12 / 5 : ℚ) ≤ 36 / 5 ∧ (36 / 5 : ℚ) < 4 * (12 / 5) ∧
      4 * (12 / 5 : ℚ) ≤ 48 / 5 ∧ (48 / 5 : ℚ) < 12) ∧
      mapColorAt c4sel (36 / 5) = mapColorAt c4sel (48 / 5) ∧
      mapColorAt c4sel 0 ≠ some "#eff3ff" := by
  refine ⟨by norm_num, by decide, by decide⟩

/-- C4 (amended): on the counts `[("10001",5), ("10002",0), ("10003",12)]`
the redraw computes max `12` and threshold breakpoints
`[0, 2.4, 4.8, 7.2, 9.6]` — the left endpoints of five equal-width bins of
`[0, 12)` — over the five-color ramp; since d3 uses at most four of those
thresholds, the realized bins on `[0, 12)` are `[0, 2.4)`, `[2.4, 4.8)`,
`[4.8, 7.2)` and `[7.2, 12)`; the feature keyed `"10002"` (count `0`) is
joined and painted the lowest realized bucket's color `"#bdd7e7"` — the
color of every value in `[0, 2.4)` — rather than exiting as missing
data. -/
theorem c4_amended :
    (updateMap c4sel).maxCount = some 12 ∧
      (updateMap c4sel).colorDomain = [0, 12 / 5, 24 / 5, 36 / 5, 48 / 5] ∧
      fillOf c4sel "10002" = some (some "#bdd7e7") ∧
      (∀ q : ℚ, 0 ≤ q → q < 12 / 5 → mapColorAt c4sel q = some "#bdd7e7") ∧
      mapColorAt c4sel (36 / 5) = some "#08519c" ∧
      mapColorAt c4sel (48 / 5) = some "#08519c" := by
  refine ⟨by decide, by decide, by decide, ?_, by decide, by decide⟩
  intro q h0 h1
  have hdom : selColorDomain c4sel = [0, 12 / 5, 24 / 5, 36 / 5, 48 / 5] := by
    decide
  unfold mapColorAt scaleThreshold
  rw [hdom]
  have htake : ([0, 12 / 5, 24 / 5, 36 / 5, 48 / 5] : List ℚ).take
      (min ([0, 12 / 5, 24 / 5, 36 / 5, 48 / 5] : List ℚ).length
        (schemeBlues5.length - 1)) = [0, 12 / 5, 24 / 5, 36 / 5] := by
    decide
  rw [htake]
  unfold bisectRight
  have hp0 : (decide ((0 : ℚ) ≤ q)) = true := decide_eq_true h0
  have hp1 : (decide ((12 / 5 : ℚ) ≤ q)) = false :=
    decide_eq_false (by linarith)
  simp [List.takeWhile_cons, hp0, hp1, schemeBlues5]

/-- Witness for the quantified clause of the amended C4: the count `1`
lies in the lowest bin and receives its color. -/
theorem c4_amended_witness :
    (0 : ℚ) ≤ 1 ∧ (1 : ℚ) < 12 / 5 ∧ mapColorAt c4sel 1 = some "#bdd7e7" :=
  ⟨by norm_num, by norm_num,
    c4_amended.2.2.2.1 1 (by norm_num) (by norm_num)⟩

/-- C5: on an empty counts sequence the redraw completes (every step of
the pipeline is total: the undefined max flows through the scale
construction as modelled) and renders the fully degenerate output — no
fills, an empty threshold domain, five `[0,0]` legend boxes of zero width
at the midpoint pixel `175`, and the caption for the current cuisine. -/
theorem c5_empty_safe (cu : String) :
    updateMap ⟨cu, []⟩ =
      { maxCount := none
        colorDomain := []
        fills := []
        exitFill := "none"
        legendBoxes := List.replicate 5 (0, 0)
        legendRects := List.replicate 5 (175, 0, some "#eff3ff")
        tickValues := []
        caption := "Number of " ++ cu ++ " Restaurants" } := by
  rfl

/-- C6: clicking `"Pizza"` then `"Tacos"` pushes exactly two queries to
the restaurant source; the second embeds `"Tacos"` and contains no
occurrence of `"Pizza"`. -/
theorem c6_two_clicks (s0 : ResState) :
    (clickBar (clickBar s0 "Pizza") "Tacos").queries =
        s0.queries ++ [cuisineQuery "Pizza", cuisineQuery "Tacos"] ∧
      (clickBar (clickBar s0 "Pizza") "Tacos").cuisine = "Tacos" ∧
      containsSeq "Tacos".data (cuisineQuery "Tacos").data = true ∧
      containsSeq "Pizza".data (cuisineQuery "Tacos").data = false := by
  refine ⟨?_, rfl, by decide, by decide⟩
  simp [clickBar]

/-- C7: building the commit-time query for any circle and parsing the
embedded literals back recovers the coordinates to within half of the
fourth decimal place (they are stored `toFixed(4)`) and the radius
exactly. -/
theorem c7_roundtrip (c : Circle) :
    ∃ plat plng prad : ℚ,
      parseSubwayQuery (subwayQuery c) = some (plat, plng, prad) ∧
        |plat - c.lat.toRat| ≤ 1 / 20000 ∧
        |plng - c.lng.toRat| ≤ 1 / 20000 ∧
        prad = c.radius.toRat := by
  refine ⟨(jsFixScaled 4 c.lat.toRat : ℚ) / (10 : ℚ) ^ 4,
    (jsFixScaled 4 c.lng.toRat : ℚ) / (10 : ℚ) ^ 4, c.radius.toRat,
    ?_, ?_, ?_, rfl⟩
  · have hpre0 : splitAtMarker "CDB_LatLng(".data subwayQueryPre.data =
        some [] := by decide
    have hsplit := splitAtMarker_append hpre0
      (fixedChars 4 c.lat.toRat ++ (',' ::
        (fixedChars 4 c.lng.toRat ++ (")::geography,".data ++
          (("\n                                      " : String).data ++
            (numChars c.radius ++ subwayQueryPost.data))))))
    rw [List.nil_append] at hsplit
    have hq : splitAtMarker "CDB_LatLng(".data (subwayQuery c).data =
        some (fixedChars 4 c.lat.toRat ++ (',' ::
          (fixedChars 4 c.lng.toRat ++ (")::geography,".data ++
            (("\n                                      " : String).data ++
              (numChars c.radius ++ subwayQueryPost.data)))))) := by
      rw [subwayQuery_data]
      exact hsplit
    rw [parseSubwayQuery_step hq, parseAfterMarker_query]
  · have h := jsFixScaled_close 4 c.lat.toRat
    have h2 : (1 : ℚ) / (2 * 10 ^ 4) = 1 / 20000 := by norm_num
    rwa [h2] at h
  · have h := jsFixScaled_close 4 c.lng.toRat
    have h2 : (1 : ℚ) / (2 * 10 ^ 4) = 1 / 20000 := by norm_num
    rwa [h2] at h

/-- C8: every edit-move or edit-resize event unconditionally sets the
dirty flag and immediately refreshes the caption with the circle's
current latitude, longitude and radius, in every state. -/
theorem c8_edit_unconditional (s : SelState) (g : Circle) (e : SelEvent)
    (he : e = SelEvent.editMove g ∨ e = SelEvent.editResize g) :
    (selStep s e).circleUpdated = true ∧
      (selStep s e).caption = captionFor g ∧
      (selStep s e).circle = g := by
  rcases he with rfl | rfl <;> exact ⟨rfl, rfl, rfl⟩

/-- Witness for C8 at a concrete state and event. -/
theorem c8_edit_unconditional_witness :
    (selStep initSelState (SelEvent.editMove initCircle)).circleUpdated =
        true ∧
      (selStep initSelState (SelEvent.editMove initCircle)).caption =
        captionFor initCircle ∧
      (selStep initSelState (SelEvent.editMove initCircle)).circle =
        initCircle :=
  c8_edit_unconditional initSelState initCircle _ (Or.inl rfl)

/-- C9: the click-handler query reads from table
`htv210.nyc_restaurant_grades` for every clicked key, while the source's
initial query reads from `huyvo.nyc_restaurant_grades` — different
tables, so the filtered query is not a restriction of the initial one
over the same table. -/
theorem c9_table_mismatch :
    fromTable resDataInitQuery = some "huyvo.nyc_restaurant_grades" ∧
      (∀ key : String,
        fromTable (cuisineQuery key) = some "htv210.nyc_restaurant_grades") ∧
      ("huyvo.nyc_restaurant_grades" : String) ≠
        "htv210.nyc_restaurant_grades" := by
  refine ⟨by decide, ?_, by decide⟩
  intro key
  unfold fromTable cuisineQuery
  rw [strData_append, strData_append, List.append_assoc]
  have h1 : splitAtMarker "FROM ".data cuisineQueryPre.data =
      some ("htv210.nyc_restaurant_grades\n           WHERE cuisine='" :
        String).data := by
    decide
  rw [splitAtMarker_append h1]
  show some (String.mk (List.takeWhile (fun c => !(jsWS c))
    (("htv210.nyc_restaurant_grades\n           WHERE cuisine='" : String).data ++
      (key.data ++ cuisineQueryPost.data)))) = _
  rw [takeWhile_append_stop ⟨'\n', by decide, by decide⟩]
  decide

/-- Witness for C9's universally quantified clause at a concrete key. -/
theorem c9_table_mismatch_witness :
    fromTable (cuisineQuery "Pizza") = some "htv210.nyc_restaurant_grades" :=
  c9_table_mismatch.2.1 "Pizza"

/-- C10: the bars are exactly the first (at most) 25 delivered pairs — a
prefix of the delivery order, of length `min 25 n` — even though the
category dataview is configured with `limit: 1000`; later pairs never
become bars. -/
theorem c10_top25 (l : List (String × ℚ)) :
    chartBars l <+: l ∧ (chartBars l).length = min 25 l.length ∧
      totalViewConfig.limit = 1000 :=
  ⟨List.take_prefix 25 l, List.length_take 25 l, rfl⟩

end DVDash
